import Mathlib

set_option maxHeartbeats 1000000

namespace Mysqlbinlogo

/-! Shallow embedding of the mysqlbinlogo repository (Go).

Time values: Go `time.Time` instants are modelled as `Int` seconds on the UTC
timeline.  The zero `time.Time` (January 1, year 1 UTC), which the code uses as
the "absent" sentinel via `IsZero`, is the constant `zeroTime`; all real event
timestamps come from `time.Unix(uint32, 0)` and are hence non-negative.
Go strings are modelled as Lean `String`; byte positions and byte lengths of
Go are modelled as character positions and lengths (exact for ASCII data). -/

/-- Unix seconds of the zero `time.Time` (0001-01-01 00:00:00 UTC). -/
def zeroTime : Int := -62135596800

/-- config.Config (config/config.go): the immutable run configuration. -/
structure Config where
  Host : String
  Port : Int
  User : String
  Password : String
  StartTime : Int
  EndTime : Int
  OutputFile : String
  Verbose : Bool
  Workers : Int
  deriving DecidableEq, Repr

/-- config.BinlogFile (config/config.go): one listed binary-log file. -/
structure BinlogFile where
  Name : String
  Size : Int
  deriving DecidableEq, Repr

/-- FileTimeRange (time_finder.go): estimated time range of one file; the
zero instant `zeroTime` in either bound means the bound is absent. -/
structure FileTimeRange where
  FileName : String
  Size : Int
  StartTime : Int
  EndTime : Int
  deriving DecidableEq, Repr

/-- config.SQLEvent (config/config.go): one normalized change record. -/
structure SQLEvent where
  Timestamp : Int
  EventType : String
  Database : String
  SQL : String
  ServerId : Nat
  Position : Nat
  Filename : String
  deriving DecidableEq, Repr

/-- The Go zero value `config.SQLEvent{}` (what `var e config.SQLEvent` holds). -/
def zeroSQLEvent : SQLEvent :=
  { Timestamp := zeroTime, EventType := "", Database := "", SQL := "",
    ServerId := 0, Position := 0, Filename := "" }

/-- The single-quote character (ASCII 39). -/
def sqc : Char := Char.ofNat 39

/-- The single-quote as a one-character string. -/
def sqs : String := String.singleton sqc

/-- A decoded scalar column value as it reaches `formatValue` through the Go
`interface{}` argument.  Floats are modelled by their exact rational value;
`goTime` carries Unix seconds; `goOther` carries the `%v` rendering of a value
of any type outside the switch. -/
inductive GoValue where
  | goNil
  | goStr (v : String)
  | goBytes (v : String)
  | goInt (v : Int)
  | goUInt (v : Nat)
  | goFloat (v : Rat)
  | goBool (v : Bool)
  | goTime (v : Int)
  | goOther (rendered : String)
  deriving DecidableEq, Repr

/-- Left-pad a natural number to two decimal digits. -/
def pad2 (n : Nat) : String :=
  if n < 10 then "0" ++ toString n else toString n

/-- Left-pad a year to four decimal digits (negative years get a sign). -/
def pad4 (y : Int) : String :=
  let n := y.natAbs
  let core :=
    if n < 10 then "000" ++ toString n
    else if n < 100 then "00" ++ toString n
    else if n < 1000 then "0" ++ toString n
    else toString n
  if y < 0 then "-" ++ core else core

/-- Civil date (year, month, day) of a day count relative to 1970-01-01
(the standard era-based conversion used for proleptic Gregorian dates). -/
def civilFromDays (z0 : Int) : Int × Nat × Nat :=
  let z := z0 + 719468
  let era : Int := z.fdiv 146097
  let doe : Nat := (z - era * 146097).toNat
  let yoe : Nat := (doe - doe / 1460 + doe / 36524 - doe / 146096) / 365
  let doy : Nat := doe - (365 * yoe + yoe / 4 - yoe / 100)
  let mp : Nat := (5 * doy + 2) / 153
  let d : Nat := doy - (153 * mp + 2) / 5 + 1
  let m : Nat := if mp < 10 then mp + 3 else mp - 9
  (era * 400 + (yoe : Int) + (if m ≤ 2 then 1 else 0), m, d)

/-- Go `t.Format("2006-01-02 15:04:05")` for a UTC instant given in Unix
seconds. -/
def goFormatDateTime (t : Int) : String :=
  let days := t.fdiv 86400
  let secs := (t.fmod 86400).toNat
  let ymd := civilFromDays days
  pad4 ymd.1 ++ "-" ++ pad2 ymd.2.1 ++ "-" ++ pad2 ymd.2.2 ++ " " ++
    pad2 (secs / 3600) ++ ":" ++ pad2 (secs % 3600 / 60) ++ ":" ++ pad2 (secs % 60)

/-- Fuel-bounded search for the least `k` with `p * 10 ^ k ≥ q` (`p, q > 0`). -/
def leastPow10GE (q : Nat) : Nat → Nat → Nat
  | _, 0 => 0
  | p, fuel + 1 => if q ≤ p then 0 else 1 + leastPow10GE q (p * 10) fuel

/-- Fuel-bounded base-10 logarithm (floor) of a natural number. -/
def log10fuel : Nat → Nat → Nat
  | _, 0 => 0
  | n, fuel + 1 => if n < 10 then 0 else 1 + log10fuel (n / 10) fuel

/-- Decimal exponent of the positive rational `p / q`: the unique `e` with
`10 ^ e ≤ p / q < 10 ^ (e + 1)`. -/
def decExp (p q : Nat) : Int :=
  if q ≤ p then (log10fuel (p / q) (p / q) : Int)
  else -(leastPow10GE q (p * 10) q + 1 : Int)

/-- Round `a / b` (with `b > 0`) to the nearest integer, ties to even. -/
def roundHalfEven (a b : Nat) : Nat :=
  let n0 := a / b
  let r := a % b
  if b < 2 * r then n0 + 1
  else if 2 * r < b then n0
  else if n0 % 2 = 0 then n0 else n0 + 1

/-- Go slice `s[:n]` of a string (byte slicing modelled on characters). -/
def goTakeStr (s : String) (n : Nat) : String := String.mk (s.data.take n)

/-- Go slice `s[n:]` of a string (byte slicing modelled on characters). -/
def goDropStr (s : String) (n : Nat) : String := String.mk (s.data.drop n)

/-- Strip trailing zero digits from a digit string. -/
def stripTrailingZeros (s : String) : String :=
  String.mk ((s.data.reverse.dropWhile (· = '0')).reverse)

/-- Exponent suffix of Go `%g` output: `e` + sign + at least two digits. -/
def g6expPart (e : Int) : String :=
  "e" ++ (if e < 0 then "-" else "+") ++ pad2 e.natAbs

/-- Go `fmt.Sprintf` with the verb `%.6g` applied to the exact rational value
of a floating-point argument: 6 significant digits, ties to even, fixed
notation for decimal exponents in `[-4, 6)` and scientific notation otherwise,
trailing zeros removed. -/
def goFormatG6 (x : Rat) : String :=
  if x = 0 then "0"
  else
    let p := x.num.natAbs
    let q := x.den
    let e0 := decExp p q
    let scaled : Nat × Nat :=
      if e0 ≤ 5 then (p * 10 ^ (5 - e0).toNat, q) else (p, q * 10 ^ (e0 - 5).toNat)
    let n0 := roundHalfEven scaled.1 scaled.2
    let n := if n0 = 1000000 then 100000 else n0
    let e := if n0 = 1000000 then e0 + 1 else e0
    let s := toString n
    let body :=
      if e < -4 ∨ 6 ≤ e then
        let frac := stripTrailingZeros (goDropStr s 1)
        (if frac = "" then goTakeStr s 1 else goTakeStr s 1 ++ "." ++ frac) ++ g6expPart e
      else if 5 ≤ e then s
      else if 0 ≤ e then
        let ip := goTakeStr s (e.toNat + 1)
        let frac := stripTrailingZeros (goDropStr s (e.toNat + 1))
        if frac = "" then ip else ip ++ "." ++ frac
      else
        "0." ++ String.mk (List.replicate (e.natAbs - 1) '0') ++ stripTrailingZeros s
    if x < 0 then "-" ++ body else body

/-- Go `strings.ReplaceAll(v, quote, doubled-quote)`: the single-character
pattern makes this a per-character expansion. -/
def goEscapeQuotes (v : String) : String :=
  String.mk (v.data.flatMap (fun c => if c = sqc then [sqc, sqc] else [c]))

/-- formatValue (value_formatter.go): renders a decoded scalar value as a SQL
literal.  Escaping doubles single quotes; the 50/47 truncation measures the
escaped text (Go byte lengths are modelled as character lengths). -/
def formatValue : GoValue → String
  | .goNil => "NULL"
  | .goStr v =>
      let escaped := goEscapeQuotes v
      let escaped := if 50 < escaped.length then goTakeStr escaped 47 ++ "..." else escaped
      sqs ++ escaped ++ sqs
  | .goBytes v =>
      let escaped := goEscapeQuotes v
      let escaped := if 50 < escaped.length then goTakeStr escaped 47 ++ "..." else escaped
      sqs ++ escaped ++ sqs
  | .goInt v => toString v
  | .goUInt v => toString v
  | .goFloat v => goFormatG6 v
  | .goBool v => if v then "1" else "0"
  | .goTime v => sqs ++ goFormatDateTime v ++ sqs
  | .goOther rendered =>
      let str := if 50 < rendered.length then goTakeStr rendered 47 ++ "..." else rendered
      sqs ++ str ++ sqs

/-- valuesEqual (value_formatter.go): `reflect.DeepEqual` with the byte-array
special case; on the modelled value universe this is structural equality. -/
def valuesEqual (a b : GoValue) : Bool := a = b

/-- Go `strconv.Atoi`: optional sign, at least one decimal digit, nothing
else, and the value must fit a signed 64-bit integer. -/
def goAtoiDigits : Option Nat → List Char → Option Nat
  | none, _ => none
  | some n, [] => some n
  | some n, c :: cs =>
      if c.isDigit then goAtoiDigits (some (n * 10 + (c.toNat - 48))) cs else none

/-- Go `strconv.Atoi` on a string, returning `none` on any parse error. -/
def goAtoi (s : String) : Option Int :=
  match s.toList with
  | [] => none
  | c :: rest =>
    let signed : Bool × List Char :=
      if c = '+' then (false, rest)
      else if c = '-' then (true, rest)
      else (false, c :: rest)
    if signed.2 = [] then none
    else
      match goAtoiDigits (some 0) signed.2 with
      | none => none
      | some n =>
        let v : Int := if signed.1 then -(n : Int) else (n : Int)
        if v < -(2 ^ 63) ∨ (2 ^ 63 - 1 : Int) < v then none else some v

/-- Split a character list at every dot (the single-separator case of Go
`strings.Split`). -/
def splitCharsOnDot : List Char → List Char → List (List Char)
  | [], cur => [cur.reverse]
  | c :: cs, cur =>
      if c = '.' then cur.reverse :: splitCharsOnDot cs []
      else splitCharsOnDot cs (c :: cur)

/-- Go `strings.Split(filename, dot)`. -/
def goSplitDot (s : String) : List String :=
  (splitCharsOnDot s.data []).map String.mk

/-- extractFileNumber (analyzer.go): numeric suffix of a binlog file name;
`999999` when the name has no dot or the trimmed last component fails
`strconv.Atoi`; all-zero components become `0`. -/
def extractFileNumber (filename : String) : Int :=
  let parts := goSplitDot filename
  if 2 ≤ parts.length then
    let lastPart := parts.getLastD ""
    let lastPart := String.mk (lastPart.data.dropWhile (· = '0'))
    let lastPart := if lastPart = "" then "0" else lastPart
    match goAtoi lastPart with
    | some num => num
    | none => 999999
  else 999999

/-- Deduplication key (analyzer.go): `fmt.Sprintf` of Position and Timestamp;
the rendered key is injective in the pair, so it is modelled as the pair. -/
def eventKey (e : SQLEvent) : Nat × Int := (e.Position, e.Timestamp)

/-- The `^uint32(0)` sentinel used to seed the minimum-position scan. -/
def uint32Max : Nat := 4294967295

/-- One iteration of selectOriginalEvent's minimum-position scan. -/
def minPosStep (acc : Nat × SQLEvent) (e : SQLEvent) : Nat × SQLEvent :=
  if e.Position < acc.1 then (e.Position, e) else acc

/-- Step 1 of selectOriginalEvent: the running (minPosition, originalEvent)
pair, seeded with `^uint32(0)` and the zero SQLEvent. -/
def minPosFold (events : List SQLEvent) : Nat × SQLEvent :=
  events.foldl minPosStep (uint32Max, zeroSQLEvent)

/-- One iteration of selectOriginalEvent's maximum-file-number scan. -/
def maxFileStep (acc : Int × SQLEvent) (e : SQLEvent) : Int × SQLEvent :=
  if acc.1 < extractFileNumber e.Filename then (extractFileNumber e.Filename, e) else acc

/-- Step 2 of selectOriginalEvent: the running (maxFileNum, originalEvent)
pair over the minimum-position candidates, seeded with 0 and step 1's pick. -/
def maxFileFold (candidates : List SQLEvent) (init : SQLEvent) : Int × SQLEvent :=
  candidates.foldl maxFileStep ((0 : Int), init)

/-- selectOriginalEvent (analyzer.go): pick the canonical record of a
duplicate group. -/
def selectOriginalEvent (events : List SQLEvent) : SQLEvent :=
  if events.length = 0 then zeroSQLEvent
  else
    let mp := minPosFold events
    let candidates := events.filter (fun e => e.Position = mp.1)
    if 1 < candidates.length then (maxFileFold candidates mp.2).2
    else mp.2

/-- Insert one event into the key-grouped association list, preserving first
occurrence order of keys and input order inside each group (models the Go map
`eventGroups` with a deterministic iteration order). -/
def addToGroups : List ((Nat × Int) × List SQLEvent) → SQLEvent →
    List ((Nat × Int) × List SQLEvent)
  | [], e => [(eventKey e, [e])]
  | kg :: rest, e =>
      if kg.1 = eventKey e then (kg.1, kg.2 ++ [e]) :: rest
      else kg :: addToGroups rest e

/-- Group the input events by `eventKey`. -/
def groupEvents (events : List SQLEvent) : List ((Nat × Int) × List SQLEvent) :=
  events.foldl addToGroups []

/-- Representative of one group: `group[0]` for singleton groups, otherwise
`selectOriginalEvent` (analyzer.go). -/
def groupRep : List SQLEvent → SQLEvent
  | [e] => e
  | g => selectOriginalEvent g

/-- removeDuplicateEvents (analyzer.go): unique events plus the number of
discarded duplicates. -/
def removeDuplicateEvents (events : List SQLEvent) : List SQLEvent × Nat :=
  let gs := groupEvents events
  (gs.map (fun g => groupRep g.2),
   gs.foldl (fun acc g => acc + (g.2.length - 1)) 0)

/-- isFileInTimeRange (efficient_finder.go): overlap test between a file's
estimated range and the requested window (6h buffer, 24h-wide-span rule). -/
def isFileInTimeRange (cfg : Config) (fileRange : FileTimeRange) : Bool :=
  if fileRange.StartTime = zeroTime ∧ fileRange.EndTime = zeroTime then true
  else if (86400 : Int) < fileRange.EndTime - fileRange.StartTime then true
  else if fileRange.EndTime ≠ zeroTime ∧ fileRange.EndTime < cfg.StartTime - 21600 then false
  else if fileRange.StartTime ≠ zeroTime ∧ cfg.EndTime + 21600 < fileRange.StartTime then false
  else true

/-- Name order on files (`sort.Slice` comparator of both finders); Go's
byte-wise lexicographic string order, modelled on character lists. -/
def nameLE (a b : BinlogFile) : Prop := a.Name.data ≤ b.Name.data

instance : DecidableRel nameLE := fun a b => inferInstanceAs (Decidable (a.Name.data ≤ b.Name.data))

instance : IsTotal BinlogFile nameLE := ⟨fun a b => le_total a.Name.data b.Name.data⟩

instance : IsTrans BinlogFile nameLE := ⟨fun _ _ _ h h' => le_trans h h'⟩

/-- Name order on probe results (`sort.Slice` comparator of
processSearchResults). -/
def pairNameLE (a b : BinlogFile × FileTimeRange) : Prop := a.1.Name.data ≤ b.1.Name.data

instance : DecidableRel pairNameLE := fun a b => inferInstanceAs (Decidable (a.1.Name.data ≤ b.1.Name.data))

instance : IsTotal (BinlogFile × FileTimeRange) pairNameLE :=
  ⟨fun a b => le_total a.1.Name.data b.1.Name.data⟩

instance : IsTrans (BinlogFile × FileTimeRange) pairNameLE :=
  ⟨fun _ _ _ h h' => le_trans h h'⟩

/-- Ascending sort of the file list by name (`sort.Slice` on `Name <`). -/
def sortByName (files : List BinlogFile) : List BinlogFile :=
  files.insertionSort nameLE

/-- The sequential per-file loop of FindTargetFilesEfficient
(efficient_finder.go), over the name-sorted files paired with the outcome of
their probe (`getFileTimeRangeQuick`; `none` meaning the probe errored and the
file is skipped): keep files passing the overlap test, and stop after the
first file whose estimated start time is set and after the requested end
time. -/
def findLoop (cfg : Config) : List (BinlogFile × Option FileTimeRange) → List BinlogFile
  | [] => []
  | (_, none) :: rest => findLoop cfg rest
  | (file, some timeRange) :: rest =>
      let sel := if isFileInTimeRange cfg timeRange then [file] else []
      if timeRange.StartTime ≠ zeroTime ∧ cfg.EndTime < timeRange.StartTime then sel
      else sel ++ findLoop cfg rest

/-- FindTargetFilesEfficient (efficient_finder.go): error on an empty list,
otherwise sort by name and run the sequential loop. -/
def FindTargetFilesEfficient (cfg : Config) (est : BinlogFile → Option FileTimeRange)
    (files : List BinlogFile) : Except String (List BinlogFile) :=
  if files = [] then .error "binary log empty"
  else .ok (findLoop cfg ((sortByName files).map (fun f => (f, est f))))

/-- processSearchResults (concurrent_finder.go): drop errored probes, re-sort
by file name, and keep every file passing the overlap test (no early stop). -/
def processSearchResults (cfg : Config)
    (results : List (BinlogFile × Option FileTimeRange)) : List BinlogFile :=
  let allResults := results.filterMap (fun r =>
    match r.2 with | none => none | some tr => some (r.1, tr))
  let sorted := allResults.insertionSort pairNameLE
  (sorted.filter (fun r => isFileInTimeRange cfg r.2)).map (fun r => r.1)

/-- FindTargetFilesConcurrent (concurrent_finder.go): with identical per-file
estimates the worker pool produces one result per file (retries are
deterministic here), collected and post-processed by processSearchResults. -/
def FindTargetFilesConcurrent (cfg : Config) (est : BinlogFile → Option FileTimeRange)
    (files : List BinlogFile) : Except String (List BinlogFile) :=
  if files = [] then .error "binary log empty"
  else .ok (processSearchResults cfg ((sortByName files).map (fun f => (f, est f))))

/-- FindTargetFilesParallel (concurrent_finder.go): sequential algorithm for
worker counts at most 1, concurrent algorithm otherwise. -/
def FindTargetFilesParallel (cfg : Config) (est : BinlogFile → Option FileTimeRange)
    (files : List BinlogFile) : Except String (List BinlogFile) :=
  if cfg.Workers ≤ 1 then FindTargetFilesEfficient cfg est files
  else FindTargetFilesConcurrent cfg est files

/-- The replication event kinds dispatched on by handleRowsEvent. -/
inductive GoEventType where
  | WRITE_ROWS_EVENTv1 | WRITE_ROWS_EVENTv2
  | UPDATE_ROWS_EVENTv1 | UPDATE_ROWS_EVENTv2
  | DELETE_ROWS_EVENTv1 | DELETE_ROWS_EVENTv2
  | QUERY_EVENT_TYPE | OTHER_EVENT_TYPE
  deriving DecidableEq, Repr

/-- replication.EventHeader: the decoded common event header. -/
structure EventHeader where
  Timestamp : Nat
  ServerID : Nat
  EventType : GoEventType
  LogPos : Nat
  EventSize : Nat
  deriving DecidableEq, Repr

/-- The typed payload of a decoded event (`QueryEvent`, `RowsEvent`, or any
other event type, which convertToSQLEvent ignores). -/
inductive EventPayload where
  | queryEvent (Schema : String) (Query : String)
  | rowsEvent (Schema : String) (Table : String) (Rows : List (List GoValue))
  | otherEvent
  deriving DecidableEq, Repr

/-- replication.BinlogEvent: header plus typed payload. -/
structure BinlogEvent where
  Header : EventHeader
  Event : EventPayload
  deriving DecidableEq, Repr

/-- Go `strings.ToLower` (modelled on the ASCII range). -/
def goToLower (s : String) : String := String.mk (s.data.map Char.toLower)

/-- Go `strings.TrimSpace` (modelled with ASCII whitespace). -/
def goTrimSpace (s : String) : String :=
  String.mk (((s.data.dropWhile Char.isWhitespace).reverse.dropWhile Char.isWhitespace).reverse)

/-- Go `strings.HasPrefix`. -/
def goHasPrefix (s p : String) : Bool := p.data.isPrefixOf s.data

/-- skipQuery (part_002): queries carrying no auditable change. -/
def skipQuery (query : String) : Bool :=
  let q := goToLower (goTrimSpace query)
  q = "" ∨ (["begin", "commit", "rollback", "set timestamp", "set autocommit",
    "# at ", "#", "/*!"].any (fun p => goHasPrefix q p))

/-- Schema-qualified table name used by the three row formatters. -/
def tableNameOf (Schema Table : String) : String :=
  if Schema ≠ "" then Schema ++ "." ++ Table else Table

/-- formatInsertEvent (part_002). -/
def formatInsertEvent (Schema Table : String) (Rows : List (List GoValue)) : String :=
  let tableName := tableNameOf Schema Table
  let rowCount := Rows.length
  let valueStr :=
    match Rows with
    | (v :: vs) :: _ =>
      let s := "(" ++ String.intercalate ", " ((v :: vs).map formatValue) ++ ")"
      if 1 < rowCount then s ++ " /* and " ++ toString (rowCount - 1) ++ " more rows */" else s
    | _ => "(...)"
  "INSERT INTO " ++ tableName ++ " VALUES " ++ valueStr

/-- formatUpdateEvent (part_002): first before/after pair, changed columns. -/
def formatUpdateEvent (Schema Table : String) (Rows : List (List GoValue)) : String :=
  let tableName := tableNameOf Schema Table
  let rowCount := Rows.length / 2
  let updateInfo :=
    match Rows with
    | beforeRow :: afterRow :: _ =>
      let changes := (List.range (min beforeRow.length afterRow.length)).filterMap (fun i =>
        let b := beforeRow.getD i .goNil
        let a := afterRow.getD i .goNil
        if valuesEqual b a then none
        else some ("col_" ++ toString (i + 1) ++ "=" ++ formatValue a ++
          " (was " ++ formatValue b ++ ")"))
      let s := if changes ≠ [] then String.intercalate ", " changes
               else "/* no visible changes */"
      if 1 < rowCount then s ++ " /* and " ++ toString (rowCount - 1) ++ " more rows */" else s
    | _ => "..."
  "UPDATE " ++ tableName ++ " SET " ++ updateInfo

/-- formatDeleteEvent (part_002): non-null columns of the first row as an
AND-joined condition, capped at 3 conditions. -/
def formatDeleteEvent (Schema Table : String) (Rows : List (List GoValue)) : String :=
  let tableName := tableNameOf Schema Table
  let rowCount := Rows.length
  let whereClause :=
    match Rows with
    | (v :: vs) :: _ =>
      let conditions := ((v :: vs).enum.filterMap (fun p =>
        if p.2 ≠ GoValue.goNil then
          some ("col_" ++ toString (p.1 + 1) ++ "=" ++ formatValue p.2)
        else none))
      let w :=
        if conditions ≠ [] then
          if 3 < conditions.length then
            String.intercalate " AND " (conditions.take 3) ++ " /* ... */"
          else String.intercalate " AND " conditions
        else "/* all columns NULL */"
      if 1 < rowCount then w ++ " /* and " ++ toString (rowCount - 1) ++ " more rows */" else w
    | _ => "..."
  "DELETE FROM " ++ tableName ++ " WHERE " ++ whereClause

/-- handleRowsEvent (part_002): row events become INSERT/UPDATE/DELETE records
keyed on the header event type; other kinds produce nothing. -/
def handleRowsEvent (ev : BinlogEvent) (Schema Table : String)
    (Rows : List (List GoValue)) (timestamp : Int) (filename : String) : Option SQLEvent :=
  let mk : String → String → SQLEvent := fun eventType sql =>
    { Timestamp := timestamp, EventType := eventType, Database := Schema, SQL := sql,
      ServerId := ev.Header.ServerID, Position := ev.Header.LogPos, Filename := filename }
  match ev.Header.EventType with
  | .WRITE_ROWS_EVENTv1 | .WRITE_ROWS_EVENTv2 =>
      some (mk "INSERT" (formatInsertEvent Schema Table Rows))
  | .UPDATE_ROWS_EVENTv1 | .UPDATE_ROWS_EVENTv2 =>
      some (mk "UPDATE" (formatUpdateEvent Schema Table Rows))
  | .DELETE_ROWS_EVENTv1 | .DELETE_ROWS_EVENTv2 =>
      some (mk "DELETE" (formatDeleteEvent Schema Table Rows))
  | _ => none

/-- convertToSQLEvent (part_002): normalize one decoded event, or nothing. -/
def convertToSQLEvent (ev : BinlogEvent) (filename : String) : Option SQLEvent :=
  let timestamp : Int := (ev.Header.Timestamp : Int)
  match ev.Event with
  | .queryEvent Schema Query =>
    if skipQuery Query then none
    else some { Timestamp := timestamp, EventType := "QUERY", Database := Schema,
                SQL := Query, ServerId := ev.Header.ServerID,
                Position := ev.Header.LogPos, Filename := filename }
  | .rowsEvent Schema Table Rows => handleRowsEvent ev Schema Table Rows timestamp filename
  | .otherEvent => none

/-- The event loop of ExtractFromSingleFile (part_002): the fuel is the
remaining event-count budget (`maxEvents`, checked before each read); events
before the window start are skipped without consuming budget; the first event
after the window end stops the file; the stream list ends at end-of-stream,
read error, or timeout. -/
def extractLoop (cfg : Config) (filename : String) :
    List BinlogEvent → Nat → List SQLEvent
  | _, 0 => []
  | [], _ => []
  | ev :: rest, fuel + 1 =>
    let eventTime : Int := (ev.Header.Timestamp : Int)
    if eventTime < cfg.StartTime then extractLoop cfg filename rest (fuel + 1)
    else if cfg.EndTime < eventTime then []
    else
      match convertToSQLEvent ev filename with
      | some sqlEvent => sqlEvent :: extractLoop cfg filename rest fuel
      | none => extractLoop cfg filename rest fuel

/-- ExtractFromSingleFile (part_002) on a given decoded event stream, with the
10000-event budget. -/
def ExtractFromSingleFile (cfg : Config) (file : BinlogFile)
    (stream : List BinlogEvent) : List SQLEvent :=
  extractLoop cfg file.Name stream 10000

/-- The external world one run sees: connection outcome, catalog listing,
per-file probe estimates, and per-file decoded event streams (`none` when
`StartSync` fails for that file). -/
structure AnalyzeEnv where
  connectOk : Bool
  catalog : Except String (List BinlogFile)
  est : BinlogFile → Option FileTimeRange
  stream : BinlogFile → Option (List BinlogEvent)

/-- Outcome of BinlogAnalyzer.Analyze: the three error returns, the two
message-and-nil returns, and the completed run. -/
inductive AnalyzeResult where
  | connectError (msg : String)
  | catalogError (msg : String)
  | findError (msg : String)
  | noFilesInRange (msg : String)
  | noEvents (msg : String)
  | completed (events : List SQLEvent) (duplicateCount : Nat)
  deriving DecidableEq, Repr

/-- Analyze (analyzer.go): connect, list files, select target files, extract
from each target file (failed extractions are skipped), deduplicate. -/
def AnalyzeGo (cfg : Config) (env : AnalyzeEnv) : AnalyzeResult :=
  if ¬ env.connectOk then .connectError "MySQL connection failed"
  else
    match env.catalog with
    | .error e => .catalogError e
    | .ok binlogFiles =>
      match FindTargetFilesParallel cfg env.est binlogFiles with
      | .error e => .findError e
      | .ok targetFiles =>
        if targetFiles = [] then
          .noFilesInRange ("no binary log file matches the window " ++
            goFormatDateTime cfg.StartTime ++ " ~ " ++ goFormatDateTime cfg.EndTime)
        else
          let allEvents := targetFiles.foldl (fun acc f =>
            match env.stream f with
            | none => acc
            | some evs => acc ++ ExtractFromSingleFile cfg f evs) []
          if allEvents = [] then .noEvents "no SQL events match the window"
          else
            let result := removeDuplicateEvents allEvents
            .completed result.1 result.2

/-- The files ExtractFromSingleFile is invoked on during Analyze: exactly the
selected target files (both the progress-bar and verbose paths iterate them). -/
def analyzeExtractorCalls (cfg : Config) (env : AnalyzeEnv) : List BinlogFile :=
  if ¬ env.connectOk then []
  else
    match env.catalog with
    | .error _ => []
    | .ok binlogFiles =>
      match FindTargetFilesParallel cfg env.est binlogFiles with
      | .error _ => []
      | .ok targetFiles => targetFiles

/-- True for the Analyze outcomes returned as a Go error (main exits 1 on
them); the message-and-nil outcomes return nil. -/
def analyzeReturnsError : AnalyzeResult → Bool
  | .connectError _ => true
  | .catalogError _ => true
  | .findError _ => true
  | .noFilesInRange _ => false
  | .noEvents _ => false
  | .completed _ _ => false

/-- runBinlogAnalysis (main.go): process exit status. `parsedStart` and
`parsedEnd` are the outcomes of `time.Parse` on the two CLI times (`none` for
an invalid format); a start time after the end time exits 1; then Analyze runs
on the window and only an error return exits 1. -/
def runBinlogAnalysisExit (parsedStart parsedEnd : Option Int) (cfg0 : Config)
    (env : AnalyzeEnv) : Nat :=
  match parsedStart with
  | none => 1
  | some s =>
    match parsedEnd with
    | none => 1
    | some e =>
      if e < s then 1
      else if analyzeReturnsError
          (AnalyzeGo { cfg0 with StartTime := s, EndTime := e } env) then 1
      else 0

/-- Membership in some group of a grouped association list. -/
def memGroups (x : SQLEvent) (gs : List ((Nat × Int) × List SQLEvent)) : Prop :=
  ∃ kg ∈ gs, x ∈ kg.2

/-- The concurrent selection core on an (already sorted) probe-result list:
drop errored probes, keep files passing the overlap test, in list order.
Equals processSearchResults on sorted input (proved below); used to compare
the two finder algorithms. -/
def concCore (cfg : Config)
    (results : List (BinlogFile × Option FileTimeRange)) : List BinlogFile :=
  ((results.filterMap (fun r =>
      match r.2 with
      | none => none
      | some tr => some (r.1, tr))).filter
    (fun r => isFileInTimeRange cfg r.2)).map (fun r => r.1)

/-! Concrete fixtures used by witnesses and counterexamples. -/

/-- A concrete run configuration (window of width zero at Unix second
1000000, two workers). -/
def cfgFix : Config :=
  { Host := "h", Port := 3306, User := "u", Password := "p",
    StartTime := 1000000, EndTime := 1000000, OutputFile := "",
    Verbose := false, Workers := 2 }

/-- First fixture file. -/
def f1 : BinlogFile := { Name := "mysql-bin.000001", Size := 100 }

/-- Second fixture file. -/
def f2 : BinlogFile := { Name := "mysql-bin.000002", Size := 100 }

/-- Estimates for the finder comparison: the first file's start time is after
the requested end (firing the sequential early stop), the second file has an
unknown range (which the overlap test includes). -/
def estC2 : BinlogFile → Option FileTimeRange := fun f =>
  if f.Name = "mysql-bin.000001" then
    some { FileName := f.Name, Size := 100, StartTime := 1030000, EndTime := 1031000 }
  else
    some { FileName := f.Name, Size := 100, StartTime := zeroTime, EndTime := zeroTime }

/-- An estimated range lying entirely more than 6h before the window but
spanning more than 24 hours (32h before start to 7h before start). -/
def rWide : FileTimeRange :=
  { FileName := "mysql-bin.000001", Size := 100,
    StartTime := 1000000 - 115200, EndTime := 1000000 - 25200 }

/-- Environment whose only file probes to the wide early range `rWide`. -/
def envC6 : AnalyzeEnv :=
  { connectOk := true, catalog := .ok [f1], est := fun _ => some rWide,
    stream := fun _ => none }

/-- Environment whose only file probes to a range after the buffered window,
so the selection comes out empty. -/
def envC8 : AnalyzeEnv :=
  { connectOk := true, catalog := .ok [f1],
    est := fun f => some { FileName := f.Name, Size := 100,
                           StartTime := 1030000, EndTime := 1031000 },
    stream := fun _ => none }

/-- Fixture timestamp (2024-01-15 10:00:00 UTC). -/
def tsW : Int := 1705312800

/-- Duplicate-group member from file `a.-5` (negative numeric suffix). -/
def evNegA : SQLEvent :=
  { Timestamp := tsW, EventType := "QUERY", Database := "", SQL := "a",
    ServerId := 1, Position := 100, Filename := "a.-5" }

/-- Duplicate-group member from file `b.000` (all-zeros suffix). -/
def evZeroB : SQLEvent := { evNegA with SQL := "b", Filename := "b.000" }

/-- Duplicate record observed from `mysql-bin.000004`. -/
def ev4 : SQLEvent :=
  { Timestamp := tsW, EventType := "QUERY", Database := "d", SQL := "s4",
    ServerId := 1, Position := 1550, Filename := "mysql-bin.000004" }

/-- The same record observed from `mysql-bin.000012`. -/
def ev12 : SQLEvent := { ev4 with SQL := "s12", Filename := "mysql-bin.000012" }

/-- Duplicate-group member at the maximal uint32 position, file `a.000`. -/
def eMaxA : SQLEvent :=
  { Timestamp := tsW, EventType := "QUERY", Database := "d", SQL := "q1",
    ServerId := 1, Position := 4294967295, Filename := "a.000" }

/-- Its duplicate from file `b.000`. -/
def eMaxB : SQLEvent := { eMaxA with SQL := "q2", Filename := "b.000" }

/-- An event whose key collides with the zero SQLEvent's key. -/
def e0x : SQLEvent :=
  { Timestamp := zeroTime, EventType := "QUERY", Database := "", SQL := "s",
    ServerId := 0, Position := 0, Filename := "x" }

/-- Configuration for the extraction-window fixtures. -/
def cfgC1 : Config :=
  { Host := "h", Port := 3306, User := "u", Password := "p",
    StartTime := 1705312800, EndTime := 1705313000, OutputFile := "",
    Verbose := false, Workers := 3 }

/-- The file whose stream the extraction fixture reads. -/
def fileC1 : BinlogFile := { Name := "mysql-bin.000003", Size := 6490 }

/-- An in-window query event. -/
def evInWindow : BinlogEvent :=
  { Header := { Timestamp := 1705312900, ServerID := 1,
                EventType := .QUERY_EVENT_TYPE, LogPos := 1550, EventSize := 100 },
    Event := .queryEvent "db" "insert into t values (1)" }

/-- A query event after the window end. -/
def evLate : BinlogEvent :=
  { Header := { Timestamp := 1705313100, ServerID := 1,
                EventType := .QUERY_EVENT_TYPE, LogPos := 1750, EventSize := 100 },
    Event := .queryEvent "db" "update t set c1 = 2" }

/-- Fixture stream: one qualifying event, then one beyond the window. -/
def streamC1 : List BinlogEvent := [evInWindow, evLate]

/-- An estimated range entirely more than 6h before the window and narrower
than 24h (8h20m before start to 7h before start). -/
def rExcl : FileTimeRange :=
  { FileName := "mysql-bin.000001", Size := 100,
    StartTime := 1000000 - 30000, EndTime := 1000000 - 25200 }

/-- Environment whose only file probes to the narrow early range `rExcl`. -/
def envC6b : AnalyzeEnv :=
  { connectOk := true, catalog := .ok [f1], est := fun _ => some rExcl,
    stream := fun _ => none }

/-! Helper lemmas about the two scans inside selectOriginalEvent. -/

theorem foldl_minPosStep_cases (l : List SQLEvent) :
    ∀ acc, l.foldl minPosStep acc = acc ∨
      ((l.foldl minPosStep acc).2 ∈ l ∧
       (l.foldl minPosStep acc).2.Position = (l.foldl minPosStep acc).1) := by
  induction l with
  | nil => intro acc; left; rfl
  | cons a l ih =>
    intro acc
    rw [List.foldl_cons]
    rcases ih (minPosStep acc a) with h | h
    · rw [h]
      unfold minPosStep
      split
      · right
        exact ⟨List.mem_cons_self a l, rfl⟩
      · left; rfl
    · right
      exact ⟨List.mem_cons_of_mem a h.1, h.2⟩

theorem foldl_minPosStep_fst_le (l : List SQLEvent) :
    ∀ acc, (l.foldl minPosStep acc).1 ≤ acc.1 := by
  induction l with
  | nil => intro acc; exact le_refl _
  | cons a l ih =>
    intro acc
    rw [List.foldl_cons]
    refine le_trans (ih (minPosStep acc a)) ?_
    unfold minPosStep
    split
    · exact le_of_lt ‹_›
    · exact le_refl _

theorem foldl_minPosStep_le_mem (l : List SQLEvent) :
    ∀ acc, ∀ e ∈ l, (l.foldl minPosStep acc).1 ≤ e.Position := by
  induction l with
  | nil => intro acc e he; cases he
  | cons a l ih =>
    intro acc e he
    rw [List.foldl_cons]
    rcases List.mem_cons.mp he with rfl | he
    · refine le_trans (foldl_minPosStep_fst_le l (minPosStep acc e)) ?_
      unfold minPosStep
      split
      · exact le_refl _
      · omega
    · exact ih (minPosStep acc a) e he

theorem foldl_minPosStep_update (l : List SQLEvent) (acc : Nat × SQLEvent)
    (h : ∃ e ∈ l, e.Position < acc.1) :
    (l.foldl minPosStep acc).2 ∈ l ∧
    (l.foldl minPosStep acc).2.Position = (l.foldl minPosStep acc).1 := by
  rcases foldl_minPosStep_cases l acc with hc | hc
  · exfalso
    obtain ⟨e, he, hlt⟩ := h
    have := foldl_minPosStep_le_mem l acc e he
    rw [hc] at this
    omega
  · exact hc

theorem foldl_minPosStep_noupdate (l : List SQLEvent) :
    ∀ acc, (∀ e ∈ l, ¬ e.Position < acc.1) → l.foldl minPosStep acc = acc := by
  induction l with
  | nil => intro acc _; rfl
  | cons a l ih =>
    intro acc h
    rw [List.foldl_cons]
    have ha : minPosStep acc a = acc := by
      unfold minPosStep
      split
      · exact absurd ‹_› (h a (List.mem_cons_self a l))
      · rfl
    rw [ha]
    exact ih acc (fun e he => h e (List.mem_cons_of_mem a he))

theorem foldl_maxFileStep_cases (l : List SQLEvent) :
    ∀ acc, l.foldl maxFileStep acc = acc ∨
      ((l.foldl maxFileStep acc).2 ∈ l ∧
       extractFileNumber (l.foldl maxFileStep acc).2.Filename = (l.foldl maxFileStep acc).1) := by
  induction l with
  | nil => intro acc; left; rfl
  | cons a l ih =>
    intro acc
    rw [List.foldl_cons]
    rcases ih (maxFileStep acc a) with h | h
    · rw [h]
      unfold maxFileStep
      split
      · right
        exact ⟨List.mem_cons_self a l, rfl⟩
      · left; rfl
    · right
      exact ⟨List.mem_cons_of_mem a h.1, h.2⟩

theorem foldl_maxFileStep_fst_ge (l : List SQLEvent) :
    ∀ acc, acc.1 ≤ (l.foldl maxFileStep acc).1 := by
  induction l with
  | nil => intro acc; exact le_refl _
  | cons a l ih =>
    intro acc
    rw [List.foldl_cons]
    refine le_trans ?_ (ih (maxFileStep acc a))
    unfold maxFileStep
    split
    · exact le_of_lt ‹_›
    · exact le_refl _

theorem foldl_maxFileStep_ge_mem (l : List SQLEvent) :
    ∀ acc, ∀ e ∈ l, extractFileNumber e.Filename ≤ (l.foldl maxFileStep acc).1 := by
  induction l with
  | nil => intro acc e he; cases he
  | cons a l ih =>
    intro acc e he
    rw [List.foldl_cons]
    rcases List.mem_cons.mp he with rfl | he
    · refine le_trans ?_ (foldl_maxFileStep_fst_ge l (maxFileStep acc e))
      unfold maxFileStep
      split
      · exact le_refl _
      · omega
    · exact ih (maxFileStep acc a) e he

theorem foldl_maxFileStep_noupdate (l : List SQLEvent) :
    ∀ acc, (∀ e ∈ l, extractFileNumber e.Filename ≤ acc.1) →
      l.foldl maxFileStep acc = acc := by
  induction l with
  | nil => intro acc _; rfl
  | cons a l ih =>
    intro acc h
    rw [List.foldl_cons]
    have ha : maxFileStep acc a = acc := by
      unfold maxFileStep
      split
      · exact absurd (h a (List.mem_cons_self a l)) (by omega)
      · rfl
    rw [ha]
    exact ih acc (fun e he => h e (List.mem_cons_of_mem a he))

theorem maxFileFold_attains (g : List SQLEvent) (init : SQLEvent)
    (h : ∃ e ∈ g, 0 < extractFileNumber e.Filename) :
    (maxFileFold g init).2 ∈ g ∧
    ∀ e ∈ g, extractFileNumber e.Filename ≤ extractFileNumber (maxFileFold g init).2.Filename := by
  unfold maxFileFold
  rcases foldl_maxFileStep_cases g ((0 : Int), init) with hc | hc
  · exfalso
    obtain ⟨e, he, hpos⟩ := h
    have := foldl_maxFileStep_ge_mem g ((0 : Int), init) e he
    rw [hc] at this
    omega
  · refine ⟨hc.1, fun e he => ?_⟩
    rw [hc.2]
    exact foldl_maxFileStep_ge_mem g ((0 : Int), init) e he

theorem selectOriginalEvent_eq (g : List SQLEvent) (hne : g ≠ []) :
    selectOriginalEvent g =
      if 1 < (g.filter (fun e => e.Position = (minPosFold g).1)).length
      then (maxFileFold (g.filter (fun e => e.Position = (minPosFold g).1)) (minPosFold g).2).2
      else (minPosFold g).2 := by
  unfold selectOriginalEvent
  rw [if_neg (fun hh => hne (List.length_eq_zero.mp hh))]

theorem selectOriginalEvent_mem (g : List SQLEvent) (hne : g ≠ [])
    (h : ∃ e ∈ g, e.Position < uint32Max) : selectOriginalEvent g ∈ g := by
  rw [selectOriginalEvent_eq g hne]
  have hmp' : (minPosFold g).2 ∈ g ∧ (minPosFold g).2.Position = (minPosFold g).1 :=
    foldl_minPosStep_update g (uint32Max, zeroSQLEvent) h
  split
  · rcases foldl_maxFileStep_cases (g.filter (fun e => e.Position = (minPosFold g).1))
        ((0 : Int), (minPosFold g).2) with hc | hc
    · unfold maxFileFold
      rw [hc]
      exact hmp'.1
    · exact List.mem_of_mem_filter hc.1
  · exact hmp'.1

theorem minPosFold_const (e₁ : SQLEvent) (g' : List SQLEvent) (p : Nat)
    (hp : p < uint32Max) (h1 : e₁.Position = p) (hall : ∀ e ∈ g', e.Position = p) :
    minPosFold (e₁ :: g') = (p, e₁) := by
  unfold minPosFold
  rw [List.foldl_cons]
  have hstep : minPosStep (uint32Max, zeroSQLEvent) e₁ = (p, e₁) := by
    unfold minPosStep
    rw [h1]
    rw [if_pos hp]
  rw [hstep]
  exact foldl_minPosStep_noupdate g' (p, e₁) (fun e he => by rw [hall e he]; omega)

theorem minPosFold_allmax (g : List SQLEvent)
    (hall : ∀ e ∈ g, e.Position = uint32Max) :
    minPosFold g = (uint32Max, zeroSQLEvent) :=
  foldl_minPosStep_noupdate g (uint32Max, zeroSQLEvent)
    (fun e he => by rw [hall e he]; omega)

theorem filter_pos_const (g : List SQLEvent) (p : Nat)
    (hall : ∀ e ∈ g, e.Position = p) :
    g.filter (fun e => e.Position = p) = g :=
  List.filter_eq_self.mpr (fun a ha => by simp [hall a ha])

theorem eventKey_fst (e : SQLEvent) (p : Nat) (t : Int)
    (h : eventKey e = (p, t)) : e.Position = p := by
  have := congrArg Prod.fst h
  simpa [eventKey] using this

theorem minPosFold_fst_samekey (p : Nat) (t : Int) (e₁ : SQLEvent)
    (g' : List SQLEvent) (hp : p ≤ uint32Max)
    (hall : ∀ e ∈ e₁ :: g', eventKey e = (p, t)) :
    (minPosFold (e₁ :: g')).1 = p ∧
    (minPosFold (e₁ :: g')).2 = (if p < uint32Max then e₁ else zeroSQLEvent) := by
  have hpos : ∀ e ∈ e₁ :: g', e.Position = p :=
    fun e he => eventKey_fst e p t (hall e he)
  by_cases hlt : p < uint32Max
  · have := minPosFold_const e₁ g' p hlt (hpos e₁ (List.mem_cons_self _ _))
      (fun e he => hpos e (List.mem_cons_of_mem _ he))
    rw [this, if_pos hlt]
    exact ⟨rfl, rfl⟩
  · have hpmax : p = uint32Max := by omega
    subst hpmax
    have := minPosFold_allmax (e₁ :: g') hpos
    rw [this, if_neg hlt]
    exact ⟨rfl, rfl⟩

theorem selectOriginalEvent_samekey (p : Nat) (t : Int) (e₁ : SQLEvent)
    (g' : List SQLEvent) (hp : p ≤ uint32Max) (hne : g' ≠ [])
    (hall : ∀ e ∈ e₁ :: g', eventKey e = (p, t)) :
    selectOriginalEvent (e₁ :: g') =
      (maxFileFold (e₁ :: g') (if p < uint32Max then e₁ else zeroSQLEvent)).2 := by
  have hpos : ∀ e ∈ e₁ :: g', e.Position = p :=
    fun e he => eventKey_fst e p t (hall e he)
  obtain ⟨hfst, hsnd⟩ := minPosFold_fst_samekey p t e₁ g' hp hall
  rw [selectOriginalEvent_eq (e₁ :: g') (by simp)]
  rw [hfst, hsnd, filter_pos_const (e₁ :: g') p hpos]
  rw [if_pos]
  cases g' with
  | nil => exact absurd rfl hne
  | cons b rest => simp

theorem selectOriginalEvent_samekey_max (p : Nat) (t : Int) (e₁ : SQLEvent)
    (g' : List SQLEvent) (hp : p ≤ uint32Max) (hne : g' ≠ [])
    (hall : ∀ e ∈ e₁ :: g', eventKey e = (p, t))
    (hposfn : ∃ e ∈ e₁ :: g', 0 < extractFileNumber e.Filename) :
    selectOriginalEvent (e₁ :: g') ∈ (e₁ :: g') ∧
    (∀ e ∈ e₁ :: g', extractFileNumber e.Filename ≤
      extractFileNumber (selectOriginalEvent (e₁ :: g')).Filename) := by
  rw [selectOriginalEvent_samekey p t e₁ g' hp hne hall]
  exact maxFileFold_attains (e₁ :: g') _ hposfn

theorem selectOriginalEvent_samekey_nonpos (p : Nat) (t : Int) (e₁ : SQLEvent)
    (g' : List SQLEvent) (hp : p ≤ uint32Max) (hne : g' ≠ [])
    (hall : ∀ e ∈ e₁ :: g', eventKey e = (p, t))
    (hnonpos : ∀ e ∈ e₁ :: g', extractFileNumber e.Filename ≤ 0) :
    selectOriginalEvent (e₁ :: g') = (if p < uint32Max then e₁ else zeroSQLEvent) := by
  rw [selectOriginalEvent_samekey p t e₁ g' hp hne hall]
  unfold maxFileFold
  rw [foldl_maxFileStep_noupdate (e₁ :: g') _ (fun e he => hnonpos e he)]

/-! Helper lemmas about the grouping association list of
removeDuplicateEvents. -/

theorem keys_addToGroups (e : SQLEvent) :
    ∀ gs : List ((Nat × Int) × List SQLEvent),
      (addToGroups gs e).map Prod.fst =
        if eventKey e ∈ gs.map Prod.fst then gs.map Prod.fst
        else gs.map Prod.fst ++ [eventKey e] := by
  intro gs
  induction gs with
  | nil => simp [addToGroups]
  | cons kg rest ih =>
    by_cases hk : kg.1 = eventKey e
    · simp [addToGroups, hk]
    · have hne : ¬ eventKey e = kg.1 := fun hh => hk hh.symm
      simp only [addToGroups, if_neg hk, List.map_cons, ih]
      by_cases hmem : eventKey e ∈ rest.map Prod.fst
      · simp [hmem, List.mem_cons, if_neg hne]
      · simp [hmem, List.mem_cons, if_neg hne]

theorem memGroups_nil (x : SQLEvent) : ¬ memGroups x [] := by
  simp [memGroups]

theorem memGroups_cons (x : SQLEvent) (kg : (Nat × Int) × List SQLEvent)
    (gs : List ((Nat × Int) × List SQLEvent)) :
    memGroups x (kg :: gs) ↔ x ∈ kg.2 ∨ memGroups x gs := by
  simp only [memGroups, List.mem_cons]
  constructor
  · rintro ⟨kg', hkg' | hkg', hx⟩
    · left; exact hkg' ▸ hx
    · right; exact ⟨kg', hkg', hx⟩
  · rintro (hx | ⟨kg', hkg', hx⟩)
    · exact ⟨kg, Or.inl rfl, hx⟩
    · exact ⟨kg', Or.inr hkg', hx⟩

theorem wf_addToGroups (e : SQLEvent) :
    ∀ gs : List ((Nat × Int) × List SQLEvent),
      (∀ kg ∈ gs, kg.2 ≠ [] ∧ ∀ x ∈ kg.2, eventKey x = kg.1) →
      ∀ kg ∈ addToGroups gs e, kg.2 ≠ [] ∧ ∀ x ∈ kg.2, eventKey x = kg.1 := by
  intro gs
  induction gs with
  | nil =>
    intro _ kg hkg
    simp only [addToGroups, List.mem_singleton] at hkg
    subst hkg
    exact ⟨by simp, by simp⟩
  | cons kg0 rest ih =>
    intro hwf kg hkg
    by_cases hk : kg0.1 = eventKey e
    · simp only [addToGroups, if_pos hk, List.mem_cons] at hkg
      rcases hkg with heq | hkg
      · subst heq
        refine ⟨by simp, fun x hx => ?_⟩
        rcases List.mem_append.mp hx with hx | hx
        · exact (hwf kg0 (List.mem_cons_self _ _)).2 x hx
        · simp only [List.mem_singleton] at hx
          subst hx
          exact hk.symm
      · exact hwf kg (List.mem_cons_of_mem _ hkg)
    · simp only [addToGroups, if_neg hk, List.mem_cons] at hkg
      rcases hkg with heq | hkg
      · subst heq
        exact hwf kg (List.mem_cons_self _ _)
      · exact ih (fun kg2 hkg2 => hwf kg2 (List.mem_cons_of_mem _ hkg2)) kg hkg

theorem nodup_keys_addToGroups (e : SQLEvent)
    (gs : List ((Nat × Int) × List SQLEvent))
    (h : (gs.map Prod.fst).Nodup) :
    ((addToGroups gs e).map Prod.fst).Nodup := by
  rw [keys_addToGroups]
  split
  · exact h
  · simp only [List.nodup_append, List.nodup_singleton, true_and]
    exact ⟨h, by simpa using ‹¬ eventKey e ∈ gs.map Prod.fst›⟩

theorem sumLens_addToGroups (e : SQLEvent) :
    ∀ gs : List ((Nat × Int) × List SQLEvent),
      ((addToGroups gs e).map (fun kg => kg.2.length)).sum =
        ((gs.map (fun kg => kg.2.length)).sum) + 1 := by
  intro gs
  induction gs with
  | nil => simp [addToGroups]
  | cons kg0 rest ih =>
    by_cases hk : kg0.1 = eventKey e
    · simp only [addToGroups, if_pos hk, List.map_cons, List.sum_cons, List.length_append,
        List.length_singleton]
      omega
    · simp only [addToGroups, if_neg hk, List.map_cons, List.sum_cons, ih]
      omega

theorem memGroups_addToGroups (x e : SQLEvent) :
    ∀ gs : List ((Nat × Int) × List SQLEvent),
      memGroups x (addToGroups gs e) ↔ memGroups x gs ∨ x = e := by
  intro gs
  induction gs with
  | nil =>
    simp only [addToGroups]
    rw [memGroups_cons]
    simp [memGroups]
  | cons kg0 rest ih =>
    by_cases hk : kg0.1 = eventKey e
    · simp only [addToGroups, if_pos hk]
      rw [memGroups_cons, memGroups_cons]
      simp only [List.mem_append, List.mem_singleton]
      tauto
    · simp only [addToGroups, if_neg hk]
      rw [memGroups_cons, memGroups_cons, ih]
      tauto

theorem addToGroups_not_mem (e : SQLEvent) :
    ∀ gs : List ((Nat × Int) × List SQLEvent),
      eventKey e ∉ gs.map Prod.fst →
      addToGroups gs e = gs ++ [(eventKey e, [e])] := by
  intro gs
  induction gs with
  | nil => intro _; rfl
  | cons kg0 rest ih =>
    intro h
    simp only [List.map_cons, List.mem_cons] at h
    push_neg at h
    have hne : ¬ kg0.1 = eventKey e := fun hh => h.1 hh.symm
    simp only [addToGroups, if_neg hne]
    rw [ih h.2]
    simp

theorem groupEvents_go_wf (evs : List SQLEvent) :
    ∀ acc, (∀ kg ∈ acc, kg.2 ≠ [] ∧ ∀ x ∈ kg.2, eventKey x = kg.1) →
      ∀ kg ∈ evs.foldl addToGroups acc, kg.2 ≠ [] ∧ ∀ x ∈ kg.2, eventKey x = kg.1 := by
  induction evs with
  | nil => intro acc h; exact h
  | cons e evs ih =>
    intro acc h
    rw [List.foldl_cons]
    exact ih (addToGroups acc e) (wf_addToGroups e acc h)

theorem groupEvents_wf (evs : List SQLEvent) :
    ∀ kg ∈ groupEvents evs, kg.2 ≠ [] ∧ ∀ x ∈ kg.2, eventKey x = kg.1 :=
  groupEvents_go_wf evs [] (by simp)

theorem groupEvents_go_nodup (evs : List SQLEvent) :
    ∀ acc, (acc.map Prod.fst).Nodup →
      ((evs.foldl addToGroups acc).map Prod.fst).Nodup := by
  induction evs with
  | nil => intro acc h; exact h
  | cons e evs ih =>
    intro acc h
    rw [List.foldl_cons]
    exact ih (addToGroups acc e) (nodup_keys_addToGroups e acc h)

theorem groupEvents_keys_nodup (evs : List SQLEvent) :
    ((groupEvents evs).map Prod.fst).Nodup :=
  groupEvents_go_nodup evs [] (by simp)

theorem groupEvents_go_sum (evs : List SQLEvent) :
    ∀ acc, ((evs.foldl addToGroups acc).map (fun kg => kg.2.length)).sum =
      ((acc.map (fun kg => kg.2.length)).sum) + evs.length := by
  induction evs with
  | nil => intro acc; simp
  | cons e evs ih =>
    intro acc
    rw [List.foldl_cons]
    rw [ih (addToGroups acc e), sumLens_addToGroups e acc]
    simp only [List.length_cons]
    omega

theorem groupEvents_sum (evs : List SQLEvent) :
    ((groupEvents evs).map (fun kg => kg.2.length)).sum = evs.length := by
  have := groupEvents_go_sum evs []
  simpa [groupEvents] using this

theorem groupEvents_go_mem (x : SQLEvent) (evs : List SQLEvent) :
    ∀ acc, memGroups x (evs.foldl addToGroups acc) ↔ memGroups x acc ∨ x ∈ evs := by
  induction evs with
  | nil => intro acc; simp
  | cons e evs ih =>
    intro acc
    rw [List.foldl_cons, ih (addToGroups acc e), memGroups_addToGroups]
    simp only [List.mem_cons]
    tauto

theorem groupEvents_mem (x : SQLEvent) (evs : List SQLEvent) :
    memGroups x (groupEvents evs) ↔ x ∈ evs := by
  have := groupEvents_go_mem x evs []
  simpa [groupEvents, memGroups] using this

theorem groupEvents_go_of_nodup (evs : List SQLEvent) :
    ∀ acc, (evs.map eventKey).Nodup →
      (∀ e ∈ evs, eventKey e ∉ acc.map Prod.fst) →
      evs.foldl addToGroups acc = acc ++ evs.map (fun e => (eventKey e, [e])) := by
  induction evs with
  | nil => intro acc _ _; simp
  | cons e evs ih =>
    intro acc hnd hdisj
    rw [List.foldl_cons, addToGroups_not_mem e acc (hdisj e (List.mem_cons_self _ _))]
    have hnd' := hnd
    rw [List.map_cons, List.nodup_cons] at hnd'
    rw [ih (acc ++ [(eventKey e, [e])]) hnd'.2 ?_]
    · simp
    · intro e' he'
      simp only [List.map_append, List.mem_append, List.map_cons, List.map_nil,
        List.mem_singleton]
      push_neg
      refine ⟨hdisj e' (List.mem_cons_of_mem _ he'), fun hk => ?_⟩
      exact hnd'.1 (hk ▸ List.mem_map_of_mem eventKey he')

theorem groupEvents_of_nodup (evs : List SQLEvent) (h : (evs.map eventKey).Nodup) :
    groupEvents evs = evs.map (fun e => (eventKey e, [e])) := by
  have := groupEvents_go_of_nodup evs [] h (by simp)
  simpa [groupEvents] using this

theorem foldl_add_count (gs : List ((Nat × Int) × List SQLEvent)) :
    ∀ n, gs.foldl (fun acc kg => acc + (kg.2.length - 1)) n =
      n + (gs.map (fun kg => kg.2.length - 1)).sum := by
  induction gs with
  | nil => intro n; simp
  | cons kg gs ih =>
    intro n
    rw [List.foldl_cons, ih]
    simp only [List.map_cons, List.sum_cons]
    omega

theorem sum_len_sub_one (gs : List ((Nat × Int) × List SQLEvent))
    (h : ∀ kg ∈ gs, kg.2 ≠ []) :
    gs.length + (gs.map (fun kg => kg.2.length - 1)).sum =
      (gs.map (fun kg => kg.2.length)).sum := by
  induction gs with
  | nil => simp
  | cons kg gs ih =>
    have hpos : 0 < kg.2.length := List.length_pos.mpr (h kg (List.mem_cons_self _ _))
    have := ih (fun kg2 hkg2 => h kg2 (List.mem_cons_of_mem _ hkg2))
    simp only [List.length_cons, List.map_cons, List.sum_cons]
    omega

theorem removeDuplicateEvents_def (evs : List SQLEvent) :
    removeDuplicateEvents evs =
      ((groupEvents evs).map (fun kg => groupRep kg.2),
       (groupEvents evs).foldl (fun acc kg => acc + (kg.2.length - 1)) 0) := rfl

theorem groupRep_singleton (e : SQLEvent) : groupRep [e] = e := rfl

theorem groupRep_pair (a b : SQLEvent) (rest : List SQLEvent) :
    groupRep (a :: b :: rest) = selectOriginalEvent (a :: b :: rest) := rfl

theorem groupRep_mem (g : List SQLEvent) (hne : g ≠ [])
    (h : ∃ e ∈ g, e.Position < uint32Max) : groupRep g ∈ g := by
  match g with
  | [e] => simp [groupRep_singleton]
  | a :: b :: rest =>
    rw [groupRep_pair]
    exact selectOriginalEvent_mem _ (by simp) h

theorem removeDuplicateEvents_of_nodup (evs : List SQLEvent)
    (h : (evs.map eventKey).Nodup) : removeDuplicateEvents evs = (evs, 0) := by
  rw [removeDuplicateEvents_def, groupEvents_of_nodup evs h]
  simp only [Prod.mk.injEq]
  constructor
  · rw [List.map_map]
    have : ((fun kg => groupRep kg.2) ∘ fun e => (eventKey e, [e])) = fun e : SQLEvent => e := by
      funext e
      simp [Function.comp, groupRep_singleton]
    rw [this]
    exact List.map_id' evs
  · rw [foldl_add_count]
    simp only [Nat.zero_add, List.map_map]
    have : ((fun kg : (Nat × Int) × List SQLEvent => kg.2.length - 1) ∘
        fun e : SQLEvent => (eventKey e, [e])) = fun _ => 0 := by
      funext e
      simp [Function.comp]
    rw [this]
    simp

theorem removeDuplicateEvents_conservation (evs : List SQLEvent) :
    (removeDuplicateEvents evs).1.length + (removeDuplicateEvents evs).2 = evs.length := by
  rw [removeDuplicateEvents_def]
  simp only [List.length_map]
  rw [foldl_add_count]
  simp only [Nat.zero_add]
  rw [sum_len_sub_one (groupEvents evs) (fun kg hkg => (groupEvents_wf evs kg hkg).1)]
  exact groupEvents_sum evs

theorem removeDuplicateEvents_out (evs : List SQLEvent)
    (h : ∀ e ∈ evs, e.Position < uint32Max) :
    (∀ x ∈ (removeDuplicateEvents evs).1, x ∈ evs) ∧
    ((removeDuplicateEvents evs).1.map eventKey).Nodup := by
  have hrep : ∀ kg ∈ groupEvents evs, groupRep kg.2 ∈ kg.2 := by
    intro kg hkg
    have hwf := groupEvents_wf evs kg hkg
    obtain ⟨y, hy⟩ := List.exists_mem_of_ne_nil kg.2 hwf.1
    refine groupRep_mem kg.2 hwf.1 ⟨y, hy, ?_⟩
    have hyevs : y ∈ evs := (groupEvents_mem y evs).mp ⟨kg, hkg, hy⟩
    exact h y hyevs
  have hmem : ∀ x ∈ (removeDuplicateEvents evs).1, x ∈ evs := by
    intro x hx
    rw [removeDuplicateEvents_def] at hx
    simp only [List.mem_map] at hx
    obtain ⟨kg, hkg, rfl⟩ := hx
    exact (groupEvents_mem _ evs).mp ⟨kg, hkg, hrep kg hkg⟩
  refine ⟨hmem, ?_⟩
  rw [removeDuplicateEvents_def]
  simp only [List.map_map]
  have : ∀ kg ∈ groupEvents evs, (eventKey ∘ fun kg => groupRep kg.2) kg = kg.1 := by
    intro kg hkg
    exact (groupEvents_wf evs kg hkg).2 _ (hrep kg hkg)
  rw [List.map_congr_left this]
  exact groupEvents_keys_nodup evs

theorem convertToSQLEvent_timestamp (ev : BinlogEvent) (filename : String)
    (s : SQLEvent) (h : convertToSQLEvent ev filename = some s) :
    s.Timestamp = (ev.Header.Timestamp : Int) := by
  obtain ⟨hdr, payload⟩ := ev
  cases payload with
  | queryEvent Schema Query =>
    by_cases hq : skipQuery Query
    · simp [convertToSQLEvent, hq] at h
    · simp [convertToSQLEvent, hq] at h
      rw [← h]
  | rowsEvent Schema Table Rows =>
    simp only [convertToSQLEvent, handleRowsEvent] at h
    cases hT : hdr.EventType <;> rw [hT] at h <;> simp only [Option.some.injEq] at h <;>
      first
        | (rw [← h])
        | cases h
  | otherEvent => simp [convertToSQLEvent] at h

theorem extractLoop_mem_window (cfg : Config) (filename : String)
    (stream : List BinlogEvent) :
    ∀ fuel, ∀ s ∈ extractLoop cfg filename stream fuel,
      cfg.StartTime ≤ s.Timestamp ∧ s.Timestamp ≤ cfg.EndTime := by
  induction stream with
  | nil =>
    intro fuel s hs
    cases fuel <;> simp [extractLoop] at hs
  | cons ev rest ih =>
    intro fuel s hs
    cases fuel with
    | zero => simp [extractLoop] at hs
    | succ m =>
      rw [extractLoop] at hs
      by_cases h1 : (ev.Header.Timestamp : Int) < cfg.StartTime
      · rw [if_pos h1] at hs
        exact ih (m + 1) s hs
      · rw [if_neg h1] at hs
        by_cases h2 : cfg.EndTime < (ev.Header.Timestamp : Int)
        · rw [if_pos h2] at hs
          cases hs
        · rw [if_neg h2] at hs
          cases hc : convertToSQLEvent ev filename with
          | none =>
            rw [hc] at hs
            exact ih m s hs
          | some sq =>
            rw [hc] at hs
            rcases List.mem_cons.mp hs with rfl | hs
            · have := convertToSQLEvent_timestamp ev filename s hc
              rw [this]
              omega
            · exact ih m s hs

/-! Helper lemmas comparing the sequential and concurrent finders. -/

theorem concCore_cons (cfg : Config) (p : BinlogFile × Option FileTimeRange)
    (rest : List (BinlogFile × Option FileTimeRange)) :
    concCore cfg (p :: rest) =
      (match p.2 with
       | none => []
       | some tr => if isFileInTimeRange cfg tr then [p.1] else []) ++
      concCore cfg rest := by
  unfold concCore
  rw [List.filterMap_cons]
  cases hp : p.2 with
  | none => simp
  | some tr =>
    by_cases hr : isFileInTimeRange cfg tr
    · simp [List.filter_cons, hr]
    · simp [List.filter_cons, hr]

theorem findLoop_prefix_concCore (cfg : Config) :
    ∀ l, ∃ t, concCore cfg l = findLoop cfg l ++ t := by
  intro l
  induction l with
  | nil => exact ⟨[], rfl⟩
  | cons p rest ih =>
    obtain ⟨t, ht⟩ := ih
    obtain ⟨f, opt⟩ := p
    cases opt with
    | none =>
      refine ⟨t, ?_⟩
      rw [concCore_cons]
      simp only [findLoop, ht]
      simp
    | some tr =>
      rw [concCore_cons]
      by_cases hstop : tr.StartTime ≠ zeroTime ∧ cfg.EndTime < tr.StartTime
      · refine ⟨concCore cfg rest, ?_⟩
        simp only [findLoop, if_pos hstop]
      · rw [ht]
        refine ⟨t, ?_⟩
        simp only [findLoop, if_neg hstop]
        simp

theorem findLoop_eq_concCore (cfg : Config) :
    ∀ l, (∀ p ∈ l, ∀ r : FileTimeRange, p.2 = some r →
        ¬(r.StartTime ≠ zeroTime ∧ cfg.EndTime < r.StartTime)) →
      findLoop cfg l = concCore cfg l := by
  intro l
  induction l with
  | nil => intro _; rfl
  | cons p rest ih =>
    intro h
    have hrest := fun p2 hp2 => h p2 (List.mem_cons_of_mem _ hp2)
    obtain ⟨f, opt⟩ := p
    cases opt with
    | none =>
      rw [concCore_cons]
      simp only [findLoop, ih hrest]
      simp
    | some tr =>
      rw [concCore_cons]
      simp only [findLoop,
        if_neg (h (f, some tr) (List.mem_cons_self _ _) tr rfl), ih hrest]

theorem mem_findLoop (cfg : Config) :
    ∀ l f, f ∈ findLoop cfg l →
      ∃ p ∈ l, p.1 = f ∧ ∃ r, p.2 = some r ∧ isFileInTimeRange cfg r = true := by
  intro l
  induction l with
  | nil => intro f hf; cases hf
  | cons p rest ih =>
    intro f hf
    obtain ⟨f0, opt⟩ := p
    cases opt with
    | none =>
      simp only [findLoop] at hf
      obtain ⟨p2, hp2, hrest⟩ := ih f hf
      exact ⟨p2, List.mem_cons_of_mem _ hp2, hrest⟩
    | some tr =>
      simp only [findLoop] at hf
      have hsel : f ∈ (if isFileInTimeRange cfg tr then [f0] else []) →
          ∃ p ∈ (f0, some tr) :: rest, p.1 = f ∧
            ∃ r, p.2 = some r ∧ isFileInTimeRange cfg r = true := by
        intro hmem
        by_cases hr : isFileInTimeRange cfg tr
        · rw [if_pos hr] at hmem
          rw [List.mem_singleton] at hmem
          subst hmem
          exact ⟨(f, some tr), List.mem_cons_self _ _, rfl, tr, rfl, hr⟩
        · rw [if_neg hr] at hmem
          cases hmem
      split at hf
      · exact hsel hf
      · rcases List.mem_append.mp hf with hf | hf
        · exact hsel hf
        · obtain ⟨p2, hp2, hrest⟩ := ih f hf
          exact ⟨p2, List.mem_cons_of_mem _ hp2, hrest⟩

theorem mem_concCore (cfg : Config) (l : List (BinlogFile × Option FileTimeRange))
    (f : BinlogFile) (hf : f ∈ concCore cfg l) :
    ∃ p ∈ l, p.1 = f ∧ ∃ r, p.2 = some r ∧ isFileInTimeRange cfg r = true := by
  unfold concCore at hf
  simp only [List.mem_map, List.mem_filter, List.mem_filterMap] at hf
  obtain ⟨⟨g, tr⟩, ⟨⟨p, hp, hmatch⟩, hrange⟩, rfl⟩ := hf
  cases hopt : p.2 with
  | none => rw [hopt] at hmatch; cases hmatch
  | some tr2 =>
    rw [hopt] at hmatch
    simp only [Option.some.injEq, Prod.mk.injEq] at hmatch
    obtain ⟨hfst, rfl⟩ := hmatch
    exact ⟨p, hp, hfst, tr2, hopt, hrange⟩

theorem sortByName_sorted (files : List BinlogFile) :
    List.Sorted nameLE (sortByName files) :=
  List.sorted_insertionSort nameLE files

theorem mem_sortByName (files : List BinlogFile) (f : BinlogFile) :
    f ∈ sortByName files ↔ f ∈ files :=
  List.mem_insertionSort nameLE

theorem processSearchResults_on_sorted (cfg : Config)
    (est : BinlogFile → Option FileTimeRange) (l : List BinlogFile)
    (hs : List.Sorted nameLE l) :
    processSearchResults cfg (l.map (fun f => (f, est f))) =
      concCore cfg (l.map (fun f => (f, est f))) := by
  unfold processSearchResults concCore
  dsimp only
  have hsorted : List.Sorted pairNameLE
      ((l.map (fun f => (f, est f))).filterMap (fun r =>
        match r.2 with
        | none => none
        | some tr => some (r.1, tr))) := by
    rw [List.Sorted, List.pairwise_filterMap]
    rw [List.pairwise_map]
    refine hs.imp_of_mem ?_
    intro a b _ _ hab
    intro p hp p2 hp2
    cases hea : est a <;> simp only [hea, Option.mem_def] at hp
    · cases hp
    · cases heb : est b <;> simp only [heb, Option.mem_def] at hp2
      · cases hp2
      · simp only [Option.some.injEq] at hp hp2
        subst hp
        subst hp2
        exact hab
  rw [List.Sorted.insertionSort_eq hsorted]

theorem isFileInTimeRange_excluded (cfg : Config) (r : FileTimeRange)
    (he : r.EndTime ≠ zeroTime)
    (hspan : r.EndTime - r.StartTime ≤ 86400)
    (hbefore : r.EndTime < cfg.StartTime - 21600) :
    isFileInTimeRange cfg r = false := by
  unfold isFileInTimeRange
  rw [if_neg (by tauto), if_neg (by omega), if_pos ⟨he, hbefore⟩]

theorem not_mem_FindTargetFilesParallel (cfg : Config)
    (est : BinlogFile → Option FileTimeRange) (f : BinlogFile) (r : FileTimeRange)
    (hest : est f = some r) (hrange : isFileInTimeRange cfg r = false) :
    ∀ files L, FindTargetFilesParallel cfg est files = .ok L → f ∉ L := by
  intro files L hL hf
  unfold FindTargetFilesParallel at hL
  split at hL
  · unfold FindTargetFilesEfficient at hL
    split at hL
    · cases hL
    · rw [Except.ok.injEq] at hL
      subst hL
      obtain ⟨p, hp, hpf, r2, hsome, hr2⟩ := mem_findLoop cfg _ f hf
      obtain ⟨g, _, rfl⟩ := List.mem_map.mp hp
      simp only at hpf hsome
      subst hpf
      rw [hest] at hsome
      rw [Option.some.injEq] at hsome
      subst hsome
      rw [hrange] at hr2
      cases hr2
  · unfold FindTargetFilesConcurrent at hL
    split at hL
    · cases hL
    · rw [Except.ok.injEq] at hL
      subst hL
      rw [processSearchResults_on_sorted cfg est (sortByName files)
        (sortByName_sorted files)] at hf
      obtain ⟨p, hp, hpf, r2, hsome, hr2⟩ := mem_concCore cfg _ f hf
      obtain ⟨g, _, rfl⟩ := List.mem_map.mp hp
      simp only at hpf hsome
      subst hpf
      rw [hest] at hsome
      rw [Option.some.injEq] at hsome
      subst hsome
      rw [hrange] at hr2
      cases hr2

/-! The claims. -/

/-- C1: for every requested window with StartTime at most EndTime and every
decoded event stream, every record returned by ExtractFromSingleFile has its
timestamp inside the window; an event with timestamp before the start is
skipped and iteration continues with the same budget, and the first event
with timestamp after the end stops the file, returning the records collected
so far (here: none from the remaining suffix). -/
theorem C1_extraction_window (cfg : Config) (h : cfg.StartTime ≤ cfg.EndTime)
    (file : BinlogFile) (stream : List BinlogEvent) :
    (∀ ev ∈ ExtractFromSingleFile cfg file stream,
      cfg.StartTime ≤ ev.Timestamp ∧ ev.Timestamp ≤ cfg.EndTime) ∧
    (∀ (e : BinlogEvent) (rest : List BinlogEvent) (fuel : Nat),
      (e.Header.Timestamp : Int) < cfg.StartTime →
      extractLoop cfg file.Name (e :: rest) (fuel + 1) =
        extractLoop cfg file.Name rest (fuel + 1)) ∧
    (∀ (e : BinlogEvent) (rest : List BinlogEvent) (fuel : Nat),
      cfg.EndTime < (e.Header.Timestamp : Int) →
      extractLoop cfg file.Name (e :: rest) (fuel + 1) = []) := by
  refine ⟨fun ev hev => extractLoop_mem_window cfg file.Name stream 10000 ev hev,
    fun e rest fuel hlt => ?_, fun e rest fuel hgt => ?_⟩
  · rw [extractLoop, if_pos hlt]
  · have hnlt : ¬ (e.Header.Timestamp : Int) < cfg.StartTime := by omega
    rw [extractLoop, if_neg hnlt, if_pos hgt]

/-- Witness for C1 at a concrete window and stream. -/
theorem C1_extraction_window_witness :
    cfgC1.StartTime ≤ cfgC1.EndTime ∧
    (∀ ev ∈ ExtractFromSingleFile cfgC1 fileC1 streamC1,
      cfgC1.StartTime ≤ ev.Timestamp ∧ ev.Timestamp ≤ cfgC1.EndTime) :=
  ⟨by decide, (C1_extraction_window cfgC1 (by decide) fileC1 streamC1).1⟩

/-- C2 counterexample: two files, two workers, identical estimates; the first
file's estimated start time is after the requested end, so the sequential
algorithm stops before probing the second file, while the concurrent one
(which has no early-stop pass) keeps the second file: the selections differ. -/
theorem C2_finder_counterexample :
    cfgFix.Workers = 2 ∧
    (FindTargetFilesEfficient cfgFix estC2 [f1, f2]).toOption = some [] ∧
    (FindTargetFilesConcurrent cfgFix estC2 [f1, f2]).toOption = some [f2] ∧
    (FindTargetFilesConcurrent cfgFix estC2 [f1, f2]).toOption ≠
      (FindTargetFilesEfficient cfgFix estC2 [f1, f2]).toOption := by
  decide

/-- C2 amended: with identical per-file estimates the sequential selection is
a prefix of the concurrent selection, and the two algorithms return the same
files in the same order whenever no successfully probed file has an estimated
start time that is set and after the requested end (the early-stop condition
never fires); the concurrent path re-sorts by file name but applies no
early-stop logic. -/
theorem C2_finder_amended (cfg : Config) (est : BinlogFile → Option FileTimeRange)
    (files : List BinlogFile) :
    (∃ t, processSearchResults cfg ((sortByName files).map (fun f => (f, est f))) =
      findLoop cfg ((sortByName files).map (fun f => (f, est f))) ++ t) ∧
    ((∀ f ∈ files, ∀ r : FileTimeRange, est f = some r →
        r.StartTime ≠ zeroTime → r.StartTime ≤ cfg.EndTime) →
      FindTargetFilesConcurrent cfg est files = FindTargetFilesEfficient cfg est files) := by
  constructor
  · rw [processSearchResults_on_sorted cfg est (sortByName files) (sortByName_sorted files)]
    exact findLoop_prefix_concCore cfg _
  · intro hyp
    unfold FindTargetFilesConcurrent FindTargetFilesEfficient
    split
    · rfl
    · rw [processSearchResults_on_sorted cfg est (sortByName files) (sortByName_sorted files)]
      rw [findLoop_eq_concCore cfg _ ?_]
      intro p hp r hr
      obtain ⟨g, hg, rfl⟩ := List.mem_map.mp hp
      simp only at hr
      rintro ⟨hz, hgt⟩
      have := hyp g ((mem_sortByName files g).mp hg) r hr hz
      omega

/-- Witness for C2 amended at a concrete input where the early stop never
fires. -/
theorem C2_finder_amended_witness :
    (∀ f ∈ [f2], ∀ r : FileTimeRange, estC2 f = some r →
      r.StartTime ≠ zeroTime → r.StartTime ≤ cfgFix.EndTime) ∧
    FindTargetFilesConcurrent cfgFix estC2 [f2] = FindTargetFilesEfficient cfgFix estC2 [f2] := by
  have hyp : ∀ f ∈ [f2], ∀ r : FileTimeRange, estC2 f = some r →
      r.StartTime ≠ zeroTime → r.StartTime ≤ cfgFix.EndTime := by
    intro f hf r hr hz
    rw [List.mem_singleton] at hf
    subst hf
    unfold estC2 at hr
    rw [if_neg (by decide)] at hr
    rw [Option.some.injEq] at hr
    subst hr
    exact absurd rfl hz
  exact ⟨hyp, (C2_finder_amended cfgFix estC2 [f2]).2 hyp⟩

/-- C3 counterexample: a duplicate group whose file suffixes are -5 and 0;
the survivor is the first minimal-position member, from `a.-5`, although
`b.000` has the numerically larger suffix. -/
theorem C3_dedup_tiebreak_counterexample :
    (∀ e ∈ [evNegA, evZeroB], eventKey e = (100, tsW)) ∧
    selectOriginalEvent [evNegA, evZeroB] = evNegA ∧
    extractFileNumber evNegA.Filename < extractFileNumber evZeroB.Filename := by
  decide

/-- C3 amended: in a group sharing the `(logPosition, timestamp)` key with
more than one member (the shared position being a uint32 value), the survivor
has the minimal position trivially; when some member's file suffix is
positive, the survivor is a group member attaining the numerically largest
suffix; when no member's suffix is positive, the survivor is the group's
first member if the shared position is below the uint32 maximum and the zero
record otherwise.  In particular, for duplicates from `mysql-bin.000004` and
`mysql-bin.000012`, the survivor is the one from `...000012`. -/
theorem C3_dedup_tiebreak_amended (p : Nat) (t : Int) (e₁ : SQLEvent)
    (g' : List SQLEvent) (hp : p ≤ uint32Max) (hne : g' ≠ [])
    (hall : ∀ e ∈ e₁ :: g', eventKey e = (p, t)) :
    ((∃ e ∈ e₁ :: g', 0 < extractFileNumber e.Filename) →
      selectOriginalEvent (e₁ :: g') ∈ (e₁ :: g') ∧
      (∀ e ∈ e₁ :: g',
        (selectOriginalEvent (e₁ :: g')).Position ≤ e.Position) ∧
      (∀ e ∈ e₁ :: g', extractFileNumber e.Filename ≤
        extractFileNumber (selectOriginalEvent (e₁ :: g')).Filename)) ∧
    ((∀ e ∈ e₁ :: g', extractFileNumber e.Filename ≤ 0) →
      selectOriginalEvent (e₁ :: g') = if p < uint32Max then e₁ else zeroSQLEvent) ∧
    (selectOriginalEvent [ev4, ev12] = ev12 ∧ selectOriginalEvent [ev12, ev4] = ev12) := by
  have hpos : ∀ e ∈ e₁ :: g', e.Position = p :=
    fun e he => eventKey_fst e p t (hall e he)
  refine ⟨fun hexist => ?_, fun hnonpos => ?_, by decide, by decide⟩
  · obtain ⟨hmem, hmax⟩ := selectOriginalEvent_samekey_max p t e₁ g' hp hne hall hexist
    refine ⟨hmem, fun e he => ?_, hmax⟩
    rw [hpos _ hmem, hpos e he]
  · exact selectOriginalEvent_samekey_nonpos p t e₁ g' hp hne hall hnonpos

/-- Witness for C3 amended at the `000004`/`000012` group. -/
theorem C3_dedup_tiebreak_amended_witness :
    ((1550 : Nat) ≤ uint32Max ∧ ([ev12] : List SQLEvent) ≠ [] ∧
      (∀ e ∈ [ev4, ev12], eventKey e = (1550, tsW))) ∧
    (selectOriginalEvent [ev4, ev12] = ev12 ∧ selectOriginalEvent [ev12, ev4] = ev12) :=
  ⟨⟨by decide, by decide, by decide⟩,
    (C3_dedup_tiebreak_amended 1550 tsW ev4 [ev12] (by decide) (by decide) (by decide)).2.2⟩

/-- C4 counterexample: an input containing a group at the maximal uint32
position whose members all have non-positive file suffixes makes the
deduplicator emit the zero record, whose key collides with another output
record; a second application of removeDuplicateEvents then changes the result
and reports one duplicate. -/
theorem C4_dedup_idempotent_counterexample :
    (removeDuplicateEvents [e0x, eMaxA, eMaxB]).1 = [e0x, zeroSQLEvent] ∧
    removeDuplicateEvents ((removeDuplicateEvents [e0x, eMaxA, eMaxB]).1) = ([e0x], 1) ∧
    removeDuplicateEvents ((removeDuplicateEvents [e0x, eMaxA, eMaxB]).1) ≠
      ((removeDuplicateEvents [e0x, eMaxA, eMaxB]).1, 0) := by
  decide

/-- C4 amended: for every input in which every event's position is below the
uint32 maximum, deduplication is idempotent: applying removeDuplicateEvents
to its own output returns that output unchanged with a duplicate count of
zero. -/
theorem C4_dedup_idempotent_amended (evs : List SQLEvent)
    (h : ∀ e ∈ evs, e.Position < uint32Max) :
    removeDuplicateEvents ((removeDuplicateEvents evs).1) =
      ((removeDuplicateEvents evs).1, 0) :=
  removeDuplicateEvents_of_nodup _ (removeDuplicateEvents_out evs h).2

/-- Witness for C4 amended at a concrete duplicate-bearing input. -/
theorem C4_dedup_idempotent_amended_witness :
    (∀ e ∈ [ev4, ev12, ev12], e.Position < uint32Max) ∧
    removeDuplicateEvents ((removeDuplicateEvents [ev4, ev12, ev12]).1) =
      ((removeDuplicateEvents [ev4, ev12, ev12]).1, 0) :=
  ⟨by decide, C4_dedup_idempotent_amended [ev4, ev12, ev12] (by decide)⟩

/-- C5: the overlap test returns true exactly when both estimated bounds are
absent (the zero instant), or the estimated end minus start exceeds 24 hours,
or the estimated range is neither entirely before the window start minus the
6-hour buffer nor entirely after the window end plus the buffer (a set bound
being required to witness either side). -/
theorem C5_overlap_test (cfg : Config) (r : FileTimeRange) :
    isFileInTimeRange cfg r = true ↔
      ((r.StartTime = zeroTime ∧ r.EndTime = zeroTime) ∨
       86400 < r.EndTime - r.StartTime ∨
       (¬(r.EndTime ≠ zeroTime ∧ r.EndTime < cfg.StartTime - 21600) ∧
        ¬(r.StartTime ≠ zeroTime ∧ cfg.EndTime + 21600 < r.StartTime))) := by
  unfold isFileInTimeRange
  split_ifs with h1 h2 h3 h4 <;> constructor <;> intro hh <;>
    first
      | rfl
      | omega
      | (exact absurd hh (by simp))

/-- C6 counterexample: an estimated range lying entirely more than 6 hours
before the window but spanning more than 24 hours is treated as overlapping
by the 24-hour rule; the file is selected and the extractor is invoked on
it. -/
theorem C6_exclusion_counterexample :
    rWide.StartTime ≤ rWide.EndTime ∧
    rWide.EndTime < cfgFix.StartTime - 21600 ∧
    rWide.StartTime ≠ zeroTime ∧ rWide.EndTime ≠ zeroTime ∧
    isFileInTimeRange cfgFix rWide = true ∧
    envC6.est f1 = some rWide ∧
    analyzeExtractorCalls cfgFix envC6 = [f1] := by
  decide

/-- C6 amended: a file whose probe succeeds with both bounds set, a span of
at most 24 hours, and an estimated end time earlier than the requested start
minus the 6-hour buffer is excluded from every selection the finder returns,
and the extractor is never invoked on it during Analyze. -/
theorem C6_exclusion_amended (cfg : Config) (env : AnalyzeEnv) (f : BinlogFile)
    (r : FileTimeRange) (hest : env.est f = some r)
    (hs : r.StartTime ≠ zeroTime) (he : r.EndTime ≠ zeroTime)
    (hspan : r.EndTime - r.StartTime ≤ 86400)
    (hbefore : r.EndTime < cfg.StartTime - 21600) :
    (∀ files L, FindTargetFilesParallel cfg env.est files = .ok L → f ∉ L) ∧
    f ∉ analyzeExtractorCalls cfg env := by
  have hrange : isFileInTimeRange cfg r = false :=
    isFileInTimeRange_excluded cfg r he hspan hbefore
  have hpart1 := not_mem_FindTargetFilesParallel cfg env.est f r hest hrange
  refine ⟨hpart1, ?_⟩
  unfold analyzeExtractorCalls
  split
  · simp
  · split
    · simp
    · split
      · simp
      · exact hpart1 _ _ ‹_›

/-- Witness for C6 amended at a concrete environment. -/
theorem C6_exclusion_amended_witness :
    (envC6b.est f1 = some rExcl ∧ rExcl.StartTime ≠ zeroTime ∧
      rExcl.EndTime ≠ zeroTime ∧ rExcl.EndTime - rExcl.StartTime ≤ 86400 ∧
      rExcl.EndTime < cfgFix.StartTime - 21600) ∧
    f1 ∉ analyzeExtractorCalls cfgFix envC6b :=
  ⟨⟨rfl, by decide, by decide, by decide, by decide⟩,
    (C6_exclusion_amended cfgFix envC6b f1 rExcl rfl (by decide) (by decide)
      (by decide) (by decide)).2⟩

/-- C7: formatValue maps nil to the bare token NULL; maps every string and
byte sequence to a single-quoted literal whose embedded single quotes are
doubled, truncated to the first 47 characters plus an ellipsis when the
escaped text exceeds 50 characters; prints floats with the 6-significant-
digit format, booleans as 1/0, timestamps as a quoted
`YYYY-MM-DD HH:MM:SS`, and integers in decimal.  Concrete instances
illustrate each clause. -/
theorem C7_formatValue_spec :
    formatValue .goNil = "NULL" ∧
    (∀ s : String, formatValue (.goStr s) =
      sqs ++ (if 50 < (goEscapeQuotes s).length
              then goTakeStr (goEscapeQuotes s) 47 ++ "..."
              else goEscapeQuotes s) ++ sqs) ∧
    (∀ s : String, formatValue (.goBytes s) = formatValue (.goStr s)) ∧
    formatValue (.goStr (String.mk (List.replicate 60 'a'))) =
      sqs ++ String.mk (List.replicate 47 'a') ++ "..." ++ sqs ∧
    formatValue (.goStr ("it" ++ sqs ++ "s")) =
      sqs ++ "it" ++ sqs ++ sqs ++ "s" ++ sqs ∧
    (∀ v : Rat, formatValue (.goFloat v) = goFormatG6 v) ∧
    formatValue (.goFloat (mkRat 5 2)) = "2.5" ∧
    formatValue (.goFloat (1234567 : Rat)) = "1.23457e+06" ∧
    formatValue (.goBool true) = "1" ∧
    formatValue (.goBool false) = "0" ∧
    (∀ t : Int, formatValue (.goTime t) = sqs ++ goFormatDateTime t ++ sqs) ∧
    formatValue (.goTime 1705312800) = sqs ++ "2024-01-15 10:00:00" ++ sqs ∧
    (∀ n : Int, formatValue (.goInt n) = toString n) ∧
    (∀ n : Nat, formatValue (.goUInt n) = toString n) := by
  refine ⟨rfl, fun s => rfl, fun s => rfl, by decide, by decide, fun v => rfl,
    by decide, by decide, rfl, rfl, fun t => rfl, by decide, fun n => rfl, fun n => rfl⟩

/-- C8 counterexample: when file selection yields zero files, Analyze prints
its message and returns nil, so the process exits with status zero, not a
non-zero status. -/
theorem C8_exit_counterexample :
    AnalyzeGo { cfgFix with StartTime := 1000000, EndTime := 1000000 } envC8 =
      .noFilesInRange ("no binary log file matches the window " ++
        "1970-01-12 13:46:40" ++ " ~ " ++ "1970-01-12 13:46:40") ∧
    runBinlogAnalysisExit (some 1000000) (some 1000000) cfgFix envC8 = 0 := by
  decide

/-- C8 amended: the process exits non-zero on an invalid start or end time
format, on a start time after the end time, on connection failure, and on
catalog failure; but when file selection yields zero files it emits a
human-readable message and exits with status zero. -/
theorem C8_exit_amended (cfg0 : Config) (env : AnalyzeEnv) (s e : Int) :
    (runBinlogAnalysisExit none (some e) cfg0 env = 1) ∧
    (runBinlogAnalysisExit (some s) none cfg0 env = 1) ∧
    (e < s → runBinlogAnalysisExit (some s) (some e) cfg0 env = 1) ∧
    (s ≤ e → ¬ env.connectOk →
      runBinlogAnalysisExit (some s) (some e) cfg0 env = 1) ∧
    (s ≤ e → env.connectOk → ∀ msg, env.catalog = .error msg →
      runBinlogAnalysisExit (some s) (some e) cfg0 env = 1) ∧
    (s ≤ e → ∀ msg,
      AnalyzeGo { cfg0 with StartTime := s, EndTime := e } env = .noFilesInRange msg →
      runBinlogAnalysisExit (some s) (some e) cfg0 env = 0) := by
  refine ⟨rfl, rfl, fun hlt => ?_, fun hse hconn => ?_, fun hse hconn msg hcat => ?_,
    fun hse msg hana => ?_⟩
  · unfold runBinlogAnalysisExit
    dsimp only
    rw [if_pos hlt]
  · unfold runBinlogAnalysisExit
    dsimp only
    rw [if_neg (by omega)]
    unfold AnalyzeGo
    rw [if_pos hconn]
    rfl
  · have hana : AnalyzeGo { cfg0 with StartTime := s, EndTime := e } env =
        .catalogError msg := by
      unfold AnalyzeGo
      rw [if_neg (show ¬¬(env.connectOk = true) from by simp [hconn])]
      rw [hcat]
    unfold runBinlogAnalysisExit
    dsimp only
    rw [if_neg (by omega), hana]
    rfl
  · unfold runBinlogAnalysisExit
    dsimp only
    rw [if_neg (by omega), hana]
    rfl

/-- Witness for C8 amended: the zero-file environment exits with status 0. -/
theorem C8_exit_amended_witness :
    ((1000000 : Int) ≤ 1000000) ∧
    runBinlogAnalysisExit (some 1000000) (some 1000000) cfgFix envC8 = 0 :=
  ⟨by decide,
    (C8_exit_amended cfgFix envC8 1000000 1000000).2.2.2.2.2 (by decide)
      ("no binary log file matches the window " ++ "1970-01-12 13:46:40" ++ " ~ " ++
        "1970-01-12 13:46:40") (by decide)⟩

/-- C9 counterexample: for a two-event group at the maximal uint32 position
whose file suffixes are all zero, the deduplicator's output is the zero
record, which is not an element of the input. -/
theorem C9_dedup_invariants_counterexample :
    removeDuplicateEvents [eMaxA, eMaxB] = ([zeroSQLEvent], 1) ∧
    zeroSQLEvent ∉ [eMaxA, eMaxB] := by
  decide

/-- C9 amended: for every input, the number of output events plus the
reported duplicate count equals the number of input events; and when every
input position is below the uint32 maximum, every output event is an element
of the input and no two output events share the same (Position, Timestamp)
key. -/
theorem C9_dedup_invariants_amended (evs : List SQLEvent) :
    ((removeDuplicateEvents evs).1.length + (removeDuplicateEvents evs).2 = evs.length) ∧
    ((∀ e ∈ evs, e.Position < uint32Max) →
      (∀ x ∈ (removeDuplicateEvents evs).1, x ∈ evs) ∧
      ((removeDuplicateEvents evs).1.map eventKey).Nodup) :=
  ⟨removeDuplicateEvents_conservation evs, fun h => removeDuplicateEvents_out evs h⟩

/-- Witness for C9 amended at a concrete duplicate-bearing input. -/
theorem C9_dedup_invariants_amended_witness :
    (∀ e ∈ [ev4, ev12, ev12], e.Position < uint32Max) ∧
    ((∀ x ∈ (removeDuplicateEvents [ev4, ev12, ev12]).1, x ∈ [ev4, ev12, ev12]) ∧
      ((removeDuplicateEvents [ev4, ev12, ev12]).1.map eventKey).Nodup) :=
  ⟨by decide, (C9_dedup_invariants_amended [ev4, ev12, ev12]).2 (by decide)⟩

/-- C10 counterexample: the file name `a.-5` has a last dot-separated
component that is not a decimal digit string, yet extractFileNumber returns
-5 (strconv.Atoi parses the sign), not 999999. -/
theorem C10_extractFileNumber_counterexample :
    (goSplitDot "a.-5").getLastD "" = "-5" ∧
    ¬(("-5").data ≠ [] ∧ ("-5").data.all Char.isDigit) ∧
    extractFileNumber "a.-5" = -5 ∧ (-5 : Int) ≠ 999999 := by
  decide

/-- C10 amended: extractFileNumber returns 999999 when the name has no dot,
and otherwise trims leading zeros from the last dot-separated component; an
all-zeros or empty component yields 0, a component failing signed integer
parsing yields 999999, and a component parsing as a signed integer yields the
parsed value (possibly negative).  Among records of a same-key group, a
record whose file number is 999999 (an unparseable name) beats every record
whose file number is below 999999. -/
theorem C10_extractFileNumber_amended :
    (∀ name : String, (goSplitDot name).length < 2 →
      extractFileNumber name = 999999) ∧
    (∀ name : String, 2 ≤ (goSplitDot name).length →
      ((((goSplitDot name).getLastD "").data.dropWhile (· = '0') = []) →
        extractFileNumber name = 0) ∧
      (∀ c, c = ((goSplitDot name).getLastD "").data.dropWhile (· = '0') → c ≠ [] →
        (goAtoi (String.mk c) = none → extractFileNumber name = 999999) ∧
        (∀ v, goAtoi (String.mk c) = some v → extractFileNumber name = v))) ∧
    (∀ (p : Nat) (t : Int) (e₁ : SQLEvent) (g' : List SQLEvent) (e1 e2 : SQLEvent),
      p ≤ uint32Max → g' ≠ [] → (∀ e ∈ e₁ :: g', eventKey e = (p, t)) →
      e1 ∈ e₁ :: g' → e2 ∈ e₁ :: g' →
      extractFileNumber e1.Filename = 999999 →
      extractFileNumber e2.Filename < 999999 →
      selectOriginalEvent (e₁ :: g') ≠ e2) ∧
    extractFileNumber "a.000" = 0 ∧ extractFileNumber "nodot" = 999999 := by
  refine ⟨fun name h => ?_, fun name h => ?_, ?_, by decide, by decide⟩
  · unfold extractFileNumber
    rw [if_neg (by omega)]
  · unfold extractFileNumber
    rw [if_pos h]
    refine ⟨fun hc => ?_, fun c hc hcne => ?_⟩
    · simp only [hc]
      decide
    · have hmkne : ¬ (String.mk c = "") :=
        fun hcontra => hcne (congrArg String.data hcontra)
      refine ⟨fun hnone => ?_, fun v hv => ?_⟩
      · simp only [← hc, if_neg hmkne, hnone]
      · simp only [← hc, if_neg hmkne, hv]
  · intro p t e₁ g' e1 e2 hp hne hall he1 he2 h999 hlt heq
    have hposfn : ∃ e ∈ e₁ :: g', 0 < extractFileNumber e.Filename :=
      ⟨e1, he1, by rw [h999]; omega⟩
    obtain ⟨hmem, hmax⟩ := selectOriginalEvent_samekey_max p t e₁ g' hp hne hall hposfn
    have := hmax e1 he1
    rw [h999, heq] at this
    omega

/-- Witness for C10 amended at a dotted name with a parseable suffix and at
a dot-free name. -/
theorem C10_extractFileNumber_amended_witness :
    ((goSplitDot "nodotname").length < 2 ∧
      (2 : Nat) ≤ (goSplitDot "mysql-bin.000012").length) ∧
    (extractFileNumber "nodotname" = 999999 ∧
      extractFileNumber "mysql-bin.000012" = 12) :=
  ⟨⟨by decide, by decide⟩,
    C10_extractFileNumber_amended.1 "nodotname" (by decide),
    ((C10_extractFileNumber_amended.2.1 "mysql-bin.000012" (by decide)).2
      [ '1', '2'] (by decide) (by decide)).2 12 (by decide)⟩

end Mysqlbinlogo
